import Mathlib

/-!
# Verification of the rs_memmap memory-mapping parser

Shallow embedding of the Rust sources:
* `src/process/memory/region.rs` — field parsers, `Permissions`, `PathType`,
  `MemoryRegion::from_str`, `MemoryRegion::size`;
* `src/memory/region.rs` — an older duplicate of the header parser (`Mem.*` below);
* `src/process/process.rs` — the snapshot-building loop of `Process::try_from`
  and `is_address_line`;
* `src/app/app.rs` — the ratio computation of `App::render`.

Strings are modelled as `List Char` (the character sequence of a Rust `&str`);
machine integers as `Nat` with explicit bounds / wrap-around where the Rust code
can overflow.
-/

namespace RsMemmap

instance {ε α : Type} [DecidableEq ε] [DecidableEq α] : DecidableEq (Except ε α) := fun a b =>
  match a, b with
  | .ok x, .ok y =>
    if h : x = y then .isTrue (by rw [h]) else .isFalse (by intro hc; cases hc; exact h rfl)
  | .ok _, .error _ => .isFalse (by intro hc; cases hc)
  | .error _, .ok _ => .isFalse (by intro hc; cases hc)
  | .error x, .error y =>
    if h : x = y then .isTrue (by rw [h]) else .isFalse (by intro hc; cases hc; exact h rfl)

/-- Unicode White_Space, the predicate behind Rust `char::is_whitespace` and
`str::trim`. -/
def rustIsWhitespace (c : Char) : Bool :=
  let n := c.toNat
  decide (9 ≤ n ∧ n ≤ 13) || decide (n = 32) || decide (n = 0x85) || decide (n = 0xA0) ||
  decide (n = 0x1680) || decide (0x2000 ≤ n ∧ n ≤ 0x200A) || decide (n = 0x2028) ||
  decide (n = 0x2029) || decide (n = 0x202F) || decide (n = 0x205F) || decide (n = 0x3000)

/-- Rust `str::trim`: drop Unicode whitespace from both ends. -/
def rustTrim (s : List Char) : List Char :=
  ((s.dropWhile rustIsWhitespace).reverse.dropWhile rustIsWhitespace).reverse

/-- Split a character list at the first character satisfying `p`
(`none` when no character matches). -/
def splitFirst (p : Char → Bool) : List Char → Option (List Char × List Char)
  | [] => none
  | c :: rest =>
    if p c then some ([], rest)
    else
      match splitFirst p rest with
      | none => none
      | some (a, b) => some (c :: a, b)

/-- Rust `str::splitn(n, p)`: at most `n` pieces, the last piece being the
unsplit remainder.  Empty pieces between consecutive separators count against
the limit `n`. -/
def splitNOn : Nat → (Char → Bool) → List Char → List (List Char)
  | 0, _, _ => []
  | 1, _, s => [s]
  | n+2, p, s =>
    match splitFirst p s with
    | none => [s]
    | some (a, b) => a :: splitNOn (n+1) p b

/-- Rust `str::split_once(sep)`. -/
def splitOnce (sep : Char) (s : List Char) : Option (List Char × List Char) :=
  splitFirst (fun c => decide (c = sep)) s

/-- Error kinds of Rust `std::num::ParseIntError` reachable from unsigned
`from_str_radix`. -/
inductive IntErrKind
  | empty
  | invalidDigit
  | posOverflow
deriving DecidableEq

/-- Rust `char::to_digit(radix)` restricted to the radixes used (10 and 16). -/
def digitVal (radix : Nat) (c : Char) : Option Nat :=
  let n := c.toNat
  let v : Option Nat :=
    if 48 ≤ n ∧ n ≤ 57 then some (n - 48)
    else if 97 ≤ n ∧ n ≤ 122 then some (n - 87)
    else if 65 ≤ n ∧ n ≤ 90 then some (n - 55)
    else none
  match v with
  | some v => if v < radix then some v else none
  | none => none

/-- Accumulating digit loop of Rust unsigned `from_str_radix`: any value
reaching `maxExclusive` (the type's `2^width`) is a positive overflow. -/
def fromStrRadixGo (maxExclusive radix : Nat) : List Char → Nat → Except IntErrKind Nat
  | [], acc => .ok acc
  | c :: rest, acc =>
    match digitVal radix c with
    | none => .error .invalidDigit
    | some d =>
      let acc' := acc * radix + d
      if acc' < maxExclusive then fromStrRadixGo maxExclusive radix rest acc'
      else .error .posOverflow

/-- Rust `uN::from_str_radix` for an unsigned integer type with
`maxExclusive = 2^N`: rejects the empty string, accepts one optional leading
`'+'`, then requires at least one digit valid for `radix`. -/
def fromStrRadix (maxExclusive radix : Nat) (s : List Char) : Except IntErrKind Nat :=
  match s with
  | [] => .error .empty
  | ['+'] => .error .invalidDigit
  | '+' :: rest => fromStrRadixGo maxExclusive radix rest 0
  | _ => fromStrRadixGo maxExclusive radix s 0

/-- `2^64`, the modulus of Rust `u64`. -/
def U64 : Nat := 2 ^ 64

/-- `2^8`, the modulus of Rust `u8`. -/
def U8 : Nat := 2 ^ 8

/-- The error enum `MemoryParseError` of `src/process/memory/region.rs`
(field-identical to `ParseError` of `src/memory/region.rs`, which this
development reuses for the older parser copy). -/
inductive MemoryParseError
  | missingField (f : String)
  | invalidAddress (s : List Char)
  | invalidPermissions (s : List Char)
  | invalidDevice (s : List Char)
  | invalidInt (k : IntErrKind)
deriving DecidableEq

/-- The `Permissions` struct: read / write / execute / shared flags. -/
structure Permissions where
  read : Bool
  write : Bool
  execute : Bool
  shared : Bool
deriving DecidableEq

/-- UTF-8 encoding of one scalar value, as stored in a Rust `&str`. -/
def utf8Bytes (c : Char) : List Nat :=
  let n := c.toNat
  if n < 0x80 then [n]
  else if n < 0x800 then [0xC0 + n / 64, 0x80 + n % 64]
  else if n < 0x10000 then [0xE0 + n / 4096, 0x80 + n / 64 % 64, 0x80 + n % 64]
  else [0xF0 + n / 262144, 0x80 + n / 4096 % 64, 0x80 + n / 64 % 64, 0x80 + n % 64]

/-- The byte sequence `str::as_bytes` of a Rust string. -/
def utf8Encode (s : List Char) : List Nat :=
  (s.map utf8Bytes).flatten

/-- `Permissions::from_str` (`src/process/memory/region.rs` lines 27-43):
requires byte length exactly 4, then compares bytes against `r`/`w`/`x`/`s`. -/
def permissionsFromStr (s : List Char) : Except MemoryParseError Permissions :=
  match utf8Encode s with
  | [b0, b1, b2, b3] => .ok ⟨b0 == 114, b1 == 119, b2 == 120, b3 == 115⟩
  | _ => .error (.invalidPermissions s)

/-- `Display for Permissions` (lines 45-56): flag letter or `-`, and `s`/`p`. -/
def permissionsDisplay (p : Permissions) : List Char :=
  [if p.read then 'r' else '-',
   if p.write then 'w' else '-',
   if p.execute then 'x' else '-',
   if p.shared then 's' else 'p']

/-- The `PathType` enum. -/
inductive PathType
  | File (p : List Char)
  | Stack
  | Heap
  | Vdso
  | Vvar
  | Vsyscall
  | Anonymous
  | Deleted (p : List Char)
deriving DecidableEq

/-- The literal suffix `" (deleted)"`. -/
def delSuffix : List Char := " (deleted)".toList

/-- Rust `str::ends_with(" (deleted)")`. -/
def endsWithDel (s : List Char) : Bool :=
  decide (delSuffix <:+ s)

/-- Loop of Rust `str::trim_end_matches(" (deleted)")`: repeatedly remove the
suffix as long as it is present.  The loop is given explicit fuel; every
iteration removes ten characters, so any fuel `≥ s.length` is enough. -/
def trimEndMatchesDelGo : Nat → List Char → List Char
  | 0, s => s
  | fuel + 1, s =>
    if endsWithDel s then trimEndMatchesDelGo fuel (s.take (s.length - delSuffix.length))
    else s

/-- Rust `str::trim_end_matches(" (deleted)")`. -/
def trimEndMatchesDel (s : List Char) : List Char :=
  trimEndMatchesDelGo s.length s

/-- `PathType::from_str` (lines 76-96).  The Rust impl returns `Result` but
never errs, so it is modelled as a total function. -/
def pathTypeFromStr (s : List Char) : PathType :=
  if s = [] then .Anonymous
  else if s = "[heap]".toList then .Heap
  else if s = "[stack]".toList then .Stack
  else if s = "[vdso]".toList then .Vdso
  else if s = "[vvar]".toList then .Vvar
  else if s = "[vsyscall]".toList then .Vsyscall
  else if endsWithDel s then .Deleted (trimEndMatchesDel s)
  else .File s

/-- The `MemoryRegion` struct: `u64` fields hold values `< 2^64` by parsing. -/
structure MemoryRegion where
  start : Nat
  «end» : Nat
  permissions : Permissions
  offset : Nat
  device : Nat × Nat
  inode : Nat
  path_name : Option PathType
deriving DecidableEq

/-- `MemoryRegion::size` (lines 124-128): Rust computes `self.end - self.start`
with unchecked `u64` subtraction, which wraps modulo `2^64` in release builds
(and panics in debug builds) when `end < start`.  Modelled as the wrapping
subtraction. -/
def MemoryRegion.size (r : MemoryRegion) : Nat :=
  (r.«end» + U64 - r.start) % U64

/-- `parse_address_range` (lines 182-191). -/
def parseAddressRange (s : List Char) : Except MemoryParseError (Nat × Nat) :=
  match splitOnce '-' s with
  | none => .error (.invalidAddress s)
  | some (startStr, endStr) =>
    match fromStrRadix U64 16 startStr with
    | .error k => .error (.invalidInt k)
    | .ok start =>
      match fromStrRadix U64 16 endStr with
      | .error k => .error (.invalidInt k)
      | .ok e => .ok (start, e)

/-- `parse_device` (lines 193-202). -/
def parseDevice (s : List Char) : Except MemoryParseError (Nat × Nat) :=
  match splitOnce ':' s with
  | none => .error (.invalidDevice s)
  | some (majorStr, minorStr) =>
    match fromStrRadix U8 16 majorStr with
    | .error k => .error (.invalidInt k)
    | .ok major =>
      match fromStrRadix U8 16 minorStr with
      | .error k => .error (.invalidInt k)
      | .ok minor => .ok (major, minor)

/-- `MemoryRegion::from_str` (lines 130-180): `line.splitn(6, char::is_whitespace)`
filtered of empty pieces, then the five mandatory fields in order, with the
optional sixth token trimmed and classified as the path. -/
def memoryRegionFromStr (line : List Char) : Except MemoryParseError MemoryRegion :=
  let toks := (splitNOn 6 rustIsWhitespace line).filter (fun t => !t.isEmpty)
  match toks with
  | [] => .error (.missingField "address range")
  | addrRange :: toks1 =>
    match parseAddressRange addrRange with
    | .error e => .error e
    | .ok (start, endAddr) =>
      match toks1 with
      | [] => .error (.missingField "permissions")
      | permsStr :: toks2 =>
        match permissionsFromStr permsStr with
        | .error e => .error e
        | .ok permissions =>
          match toks2 with
          | [] => .error (.missingField "offset")
          | offsetStr :: toks3 =>
            match fromStrRadix U64 16 offsetStr with
            | .error k => .error (.invalidInt k)
            | .ok offset =>
              match toks3 with
              | [] => .error (.missingField "device")
              | devStr :: toks4 =>
                match parseDevice devStr with
                | .error e => .error e
                | .ok device =>
                  match toks4 with
                  | [] => .error (.missingField "inode")
                  | inodeStr :: toks5 =>
                    match fromStrRadix U64 10 inodeStr with
                    | .error k => .error (.invalidInt k)
                    | .ok inode =>
                      .ok ⟨start, endAddr, permissions, offset, device, inode,
                           toks5.head?.map (fun s => pathTypeFromStr (rustTrim s))⟩

example : memoryRegionFromStr "7f2a1b3c4000-7f2a1b5c4000 r-xp 00001000 08:01 1234567 /usr/lib/libc.so.6".toList =
    .ok ⟨0x7f2a1b3c4000, 0x7f2a1b5c4000, ⟨true, false, true, false⟩, 0x1000, (8, 1), 1234567,
         some (.File "/usr/lib/libc.so.6".toList)⟩ := by decide

example : memoryRegionFromStr "0-1 rw-p 0 0:0 0 [heap]".toList =
    .ok ⟨0, 1, ⟨true, true, false, false⟩, 0, (0, 0), 0, some .Heap⟩ := by decide

example : memoryRegionFromStr "0-1 r--p 0 0:0 0 /tmp/old.so (deleted)".toList =
    .ok ⟨0, 1, ⟨true, false, false, false⟩, 0, (0, 0), 0,
         some (.Deleted "/tmp/old.so".toList)⟩ := by decide

/-! ## The older duplicate parser, `src/memory/region.rs`

`src/memory/region.rs` declares `ParseError`, `Permissions`, `PathType` and
`MemoryRegion` with exactly the same fields and variants as
`src/process/memory/region.rs`; the embedding reuses the Lean types above and
duplicates the functions, which is what claim C10 compares. -/

/-- `parse_address_range` of `src/memory/region.rs` (lines 147-156). -/
def Mem.parseAddressRange (s : List Char) : Except MemoryParseError (Nat × Nat) :=
  match splitOnce '-' s with
  | none => .error (.invalidAddress s)
  | some (startStr, endStr) =>
    match fromStrRadix U64 16 startStr with
    | .error k => .error (.invalidInt k)
    | .ok start =>
      match fromStrRadix U64 16 endStr with
      | .error k => .error (.invalidInt k)
      | .ok e => .ok (start, e)

/-- `parse_device` of `src/memory/region.rs` (lines 158-167). -/
def Mem.parseDevice (s : List Char) : Except MemoryParseError (Nat × Nat) :=
  match splitOnce ':' s with
  | none => .error (.invalidDevice s)
  | some (majorStr, minorStr) =>
    match fromStrRadix U8 16 majorStr with
    | .error k => .error (.invalidInt k)
    | .ok major =>
      match fromStrRadix U8 16 minorStr with
      | .error k => .error (.invalidInt k)
      | .ok minor => .ok (major, minor)

/-- `Permissions::from_str` of `src/memory/region.rs` (lines 26-42). -/
def Mem.permissionsFromStr (s : List Char) : Except MemoryParseError Permissions :=
  match utf8Encode s with
  | [b0, b1, b2, b3] => .ok ⟨b0 == 114, b1 == 119, b2 == 120, b3 == 115⟩
  | _ => .error (.invalidPermissions s)

/-- `PathType::from_str` of `src/memory/region.rs` (lines 62-82). -/
def Mem.pathTypeFromStr (s : List Char) : PathType :=
  if s = [] then .Anonymous
  else if s = "[heap]".toList then .Heap
  else if s = "[stack]".toList then .Stack
  else if s = "[vdso]".toList then .Vdso
  else if s = "[vvar]".toList then .Vvar
  else if s = "[vsyscall]".toList then .Vsyscall
  else if endsWithDel s then .Deleted (trimEndMatchesDel s)
  else .File s

/-- `MemoryRegion::from_str` of `src/memory/region.rs` (lines 95-145). -/
def Mem.memoryRegionFromStr (line : List Char) : Except MemoryParseError MemoryRegion :=
  let toks := (splitNOn 6 rustIsWhitespace line).filter (fun t => !t.isEmpty)
  match toks with
  | [] => .error (.missingField "address range")
  | addrRange :: toks1 =>
    match Mem.parseAddressRange addrRange with
    | .error e => .error e
    | .ok (start, endAddr) =>
      match toks1 with
      | [] => .error (.missingField "permissions")
      | permsStr :: toks2 =>
        match Mem.permissionsFromStr permsStr with
        | .error e => .error e
        | .ok permissions =>
          match toks2 with
          | [] => .error (.missingField "offset")
          | offsetStr :: toks3 =>
            match fromStrRadix U64 16 offsetStr with
            | .error k => .error (.invalidInt k)
            | .ok offset =>
              match toks3 with
              | [] => .error (.missingField "device")
              | devStr :: toks4 =>
                match Mem.parseDevice devStr with
                | .error e => .error e
                | .ok device =>
                  match toks4 with
                  | [] => .error (.missingField "inode")
                  | inodeStr :: toks5 =>
                    match fromStrRadix U64 10 inodeStr with
                    | .error k => .error (.invalidInt k)
                    | .ok inode =>
                      .ok ⟨start, endAddr, permissions, offset, device, inode,
                           toks5.head?.map (fun s => Mem.pathTypeFromStr (rustTrim s))⟩

/-! ## The snapshot builder, `src/process/process.rs` -/

/-- `is_address_line` (`src/process/process.rs` lines 59-61): the first
character is an ASCII hexadecimal digit. -/
def isAsciiHexDigit (c : Char) : Bool :=
  decide ('0' ≤ c ∧ c ≤ '9') || decide ('a' ≤ c ∧ c ≤ 'f') || decide ('A' ≤ c ∧ c ≤ 'F')

/-- `is_address_line`: `line.chars().next().map_or(false, |c| c.is_ascii_hexdigit())`. -/
def isAddressLine (line : List Char) : Bool :=
  match line with
  | [] => false
  | c :: _ => isAsciiHexDigit c

/-- Modelled from the spec: `DetailedMemoryRegion` (referenced by
`src/process/process.rs` but its definition is not under `src/`): a base
`MemoryRegion` plus a mapping from counter name to a kibibyte value, here an
association list with the most recent write first. -/
structure DetailedMemoryRegion where
  region : MemoryRegion
  counters : List (List Char × Nat)
deriving DecidableEq

/-- Modelled from the spec: `DetailedMemoryRegion::from_region` starts a region
with no counters accumulated. -/
def DetailedMemoryRegion.fromRegion (r : MemoryRegion) : DetailedMemoryRegion :=
  ⟨r, []⟩

/-- Modelled from the spec: `parse_detail_into_region` (referenced by
`src/process/process.rs` but not under `src/`); spec §4.4: extract the key
before `:`, parse the numeric value, store `(key, value)` overwriting any
prior value for the key; lines that do not match `key: value [unit]` are
silently skipped and never fail. -/
def parseDetailIntoRegion (r : DetailedMemoryRegion) (line : List Char) : DetailedMemoryRegion :=
  match splitOnce ':' line with
  | none => r
  | some (key, rest) =>
    let valueTok := (rustTrim rest).takeWhile (fun c => !rustIsWhitespace c)
    match fromStrRadix U64 10 valueTok with
    | .error _ => r
    | .ok v => ⟨r.region, (key, v) :: r.counters.filter (fun p => !(p.1 == key))⟩

theorem dropWhileLenLe (p : List Char → Bool) (l : List (List Char)) :
    (l.dropWhile p).length ≤ l.length :=
  (List.dropWhile_suffix p).length_le

/-- The line-scanning loop of `Process::try_from` (`src/process/process.rs`
lines 38-52), on the list of lines of the descriptor text: each line whose
first character is an ASCII hex digit starts a region; the following
non-address lines are folded into that region's counters; a failing header
parse aborts the whole construction via `?`. -/
def buildRegions : List (List Char) → Except MemoryParseError (List DetailedMemoryRegion)
  | [] => .ok []
  | l :: rest =>
    if isAddressLine l then
      match memoryRegionFromStr l with
      | .error e => .error e
      | .ok base =>
        let region := (rest.takeWhile (fun x => !isAddressLine x)).foldl parseDetailIntoRegion
          (DetailedMemoryRegion.fromRegion base)
        match buildRegions (rest.dropWhile (fun x => !isAddressLine x)) with
        | .error e => .error e
        | .ok tail => .ok (region :: tail)
    else buildRegions rest
termination_by lines => lines.length
decreasing_by
  all_goals simp only [List.length_cons]
  · exact Nat.lt_succ_of_le (dropWhileLenLe _ _)
  · omega

/-- The `Process` struct. -/
structure Process where
  pid : Nat
  cmd_line : List Char
  memory_regions : List DetailedMemoryRegion
deriving DecidableEq

/-- `ProcessParseError` without the I/O variant (file-system reads are outside
the embedding). -/
inductive ProcessParseError
  | invalidInt (k : IntErrKind)
  | memoryParseError (e : MemoryParseError)
deriving DecidableEq

/-- Rust full `split` on one character (no piece limit). -/
def splitOnChar (sep : Char) : List Char → List (List Char)
  | [] => [[]]
  | c :: rest =>
    if c = sep then [] :: splitOnChar sep rest
    else
      match splitOnChar sep rest with
      | [] => [[c]]
      | a :: as => (c :: a) :: as

/-- Strip one trailing `'\r'`, as Rust `lines` does on a `"\r\n"` ending. -/
def stripTrailingCR (l : List Char) : List Char :=
  if l.getLast? = some '\r' then l.dropLast else l

/-- Apply `f` to every element except the last. -/
def mapExceptLast (f : List Char → List Char) : List (List Char) → List (List Char)
  | [] => []
  | [a] => [a]
  | a :: b :: rest => f a :: mapExceptLast f (b :: rest)

/-- Rust `str::lines`: split at `'\n'` (terminator semantics: no empty final
line for text ending in a newline), stripping one `'\r'` before each `'\n'`
terminator; a line without a terminator (the final one, when the text does
not end in `'\n'`) keeps a trailing `'\r'`. -/
def rustLines (s : List Char) : List (List Char) :=
  match s with
  | [] => []
  | _ =>
    let parts := splitOnChar '\n' s
    if s.getLast? = some '\n' then parts.dropLast.map stripTrailingCR
    else mapExceptLast stripTrailingCR parts

/-- The pure part of `Process::try_from` (`src/process/process.rs` lines
27-56), taking the two file contents as inputs: normalize NULs of the cmdline
to spaces and trim; scan the descriptor lines into regions. -/
def processFromContents (pid : Nat) (cmdlineContent smapsContent : List Char) :
    Except ProcessParseError Process :=
  let cmd_line := rustTrim (cmdlineContent.map (fun c => if c = Char.ofNat 0 then ' ' else c))
  match buildRegions (rustLines smapsContent) with
  | .error e => .error (.memoryParseError e)
  | .ok rs => .ok ⟨pid, cmd_line, rs⟩

/-! ## The presentation-side ratio computation, `src/app/app.rs` -/

/-- `TOP_N_REGIONS` (`src/app/app.rs` line 9). -/
def TOP_N_REGIONS : Nat := 5

/-- The ratio computation of `App::render` (`src/app/app.rs` lines 82-84 and
125-132): `total` is the sum over all groups, and each of the first
`TOP_N_REGIONS` groups is rendered with `rss as f64 / total as f64`.  The
`f64` quotient is modelled as a rational; division by a zero total, which in
IEEE arithmetic yields NaN (or infinity) rather than a number in `[0,1]`, is
modelled as `none`. -/
def renderRatios (memoryTotals : List (List Char × Nat)) : List (Option ℚ) :=
  let total := (memoryTotals.map Prod.snd).sum
  (memoryTotals.take TOP_N_REGIONS).map
    (fun g => if total = 0 then none else some ((g.2 : ℚ) / (total : ℚ)))

/-! ## Claim theorems (closed statements) -/

/-- C10: the two copies of the region header parser are equivalent — for every
input line, `MemoryRegion::from_str` of `src/memory/region.rs` and
`MemoryRegion::from_str` of `src/process/memory/region.rs` produce identical
results: the same field values on success and the same kind of error on
failure. -/
theorem region_parsers_agree (line : List Char) :
    Mem.memoryRegionFromStr line = memoryRegionFromStr line := rfl

/-- C3: a header line whose addresses satisfy `end < start` still parses
(`from_str` succeeds), but `MemoryRegion::size` computes `end - start` with
unchecked `u64` subtraction: on the parsed region of `"1-0 r-xp 0 0:0 0"` the
size wraps around to `2^64 - 1` (release builds; debug builds panic), instead
of being defined without underflow as the claim states. -/
theorem size_wraps_on_inverted_range :
    (memoryRegionFromStr "1-0 r-xp 0 0:0 0".toList).map MemoryRegion.size =
      .ok (2 ^ 64 - 1) := by decide

/-- C5: when the grand total of the chosen counter is 0 (here: a single group
whose counter sum is 0), `App::render` divides by the zero total with no
guard; the resulting `f64` is NaN (modelled `none`), not the ratio 0 the claim
requires, and it is outside `[0,1]`. -/
theorem zero_total_ratio_not_zero :
    renderRatios [("[anonymous]".toList, 0)] = [none] ∧ (none : Option ℚ) ≠ some 0 := by
  exact ⟨rfl, by decide⟩

/-- C1 counterexample: two header lines with identical fields, differing only
in that the separator before the inode is a run of two spaces instead of one:
the single-space line parses (inode 7, path `/x`), while the double-space line
fails with `InvalidInt`, because `splitn(6, char::is_whitespace)` counts the
empty piece between the two spaces against its limit of 6 pieces.  So the
field values are not independent of whitespace-run width. -/
theorem from_str_whitespace_runs_counterexample :
    memoryRegionFromStr "0-1 r-xp 0 0:0 7 /x".toList =
      .ok ⟨0, 1, ⟨true, false, true, false⟩, 0, (0, 0), 7, some (.File "/x".toList)⟩ ∧
    memoryRegionFromStr "0-1 r-xp 0 0:0  7 /x".toList =
      .error (.invalidInt .invalidDigit) := by
  exact ⟨by decide, by decide⟩

/-- C6 counterexample: a 4-character permission string whose position 3 is the
non-ASCII character `é` (U+00E9) does not round-trip to a `p`-normalized
string — `Permissions::from_str` checks the UTF-8 *byte* length, which is 5
here, and rejects the string outright. -/
theorem permissions_roundtrip_counterexample :
    permissionsFromStr ['r', 'w', 'x', Char.ofNat 233] =
      .error (.invalidPermissions ['r', 'w', 'x', Char.ofNat 233]) := by decide

/-- C7 counterexample: on `"/x (deleted) (deleted)"`, `PathType::from_str`
yields `Deleted("/x")` — `trim_end_matches` removes *all* trailing repetitions
of the suffix — not `Deleted("/x (deleted)")` (one suffix removed) as the
claim states. -/
theorem deleted_suffix_counterexample :
    pathTypeFromStr "/x (deleted) (deleted)".toList = .Deleted "/x".toList ∧
    pathTypeFromStr "/x (deleted) (deleted)".toList ≠ .Deleted "/x (deleted)".toList := by
  exact ⟨by decide, by decide⟩

/-! ## C6: permissions round trip (amended to ASCII position 3) -/

theorem charToNatInjective (a b : Char) (h : a.toNat = b.toNat) : a = b := by
  cases a with | mk v1 h1 => cases b with | mk v2 h2 =>
  congr 1
  cases v1; cases v2
  congr 1
  simp only [Char.toNat, UInt32.toNat] at h
  exact BitVec.eq_of_toNat_eq h

theorem utf8BytesAscii (c : Char) (h : c.toNat < 128) : utf8Bytes c = [c.toNat] := by
  unfold utf8Bytes
  rw [if_pos h]

/-- C6 (amended): for every 4-character permission string whose positions 0-2
are the flag letter or `-` and whose position 3 is any *single-byte* (ASCII)
character, `Permissions::from_str` followed by `Display` reproduces the
original string exactly, except that any position-3 character other than `s`
normalizes to `p`.  (A multi-byte position-3 character makes the byte length
exceed 4 and parsing fails instead, see the counterexample.) -/
theorem permissions_roundtrip_ascii (c0 c1 c2 c3 : Char)
    (h0 : c0 = 'r' ∨ c0 = '-') (h1 : c1 = 'w' ∨ c1 = '-') (h2 : c2 = 'x' ∨ c2 = '-')
    (h3 : c3.toNat < 128) :
    (permissionsFromStr [c0, c1, c2, c3]).map permissionsDisplay =
      .ok [c0, c1, c2, if c3 = 's' then 's' else 'p'] := by
  have e0 : utf8Bytes c0 = [c0.toNat] := by rcases h0 with h | h <;> subst h <;> decide
  have e1 : utf8Bytes c1 = [c1.toNat] := by rcases h1 with h | h <;> subst h <;> decide
  have e2 : utf8Bytes c2 = [c2.toNat] := by rcases h2 with h | h <;> subst h <;> decide
  have e3 : utf8Bytes c3 = [c3.toNat] := utf8BytesAscii c3 h3
  have henc : utf8Encode [c0, c1, c2, c3] = [c0.toNat, c1.toNat, c2.toNat, c3.toNat] := by
    simp [utf8Encode, e0, e1, e2, e3]
  unfold permissionsFromStr
  rw [henc]
  simp only [Except.map, permissionsDisplay, Except.ok.injEq, List.cons.injEq, and_true]
  refine ⟨?_, ?_, ?_, ?_⟩
  · rcases h0 with h | h <;> subst h <;> rfl
  · rcases h1 with h | h <;> subst h <;> rfl
  · rcases h2 with h | h <;> subst h <;> rfl
  · by_cases hc : c3 = 's'
    · subst hc; rfl
    · have hn : (c3.toNat == 115) = false := by
        refine beq_eq_false_iff_ne.mpr ?_
        intro hEq
        exact hc (charToNatInjective c3 's' hEq)
      rw [if_neg hc]
      simp [hn]

theorem permissions_roundtrip_ascii_witness :
    (('r' = 'r' ∨ 'r' = '-') ∧ ('-' = 'w' ∨ '-' = '-') ∧ ('x' = 'x' ∨ 'x' = '-') ∧
      '!'.toNat < 128) ∧
    (permissionsFromStr ['r', '-', 'x', '!']).map permissionsDisplay =
      .ok ['r', '-', 'x', if '!' = 's' then 's' else 'p'] :=
  ⟨by decide,
   permissions_roundtrip_ascii 'r' '-' 'x' '!' (by decide) (by decide) (by decide) (by decide)⟩

/-! ## C7: total path classification (amended: all trailing suffix copies removed) -/

theorem flattenReplicateSucc (n : Nat) (x : List Char) :
    (List.replicate (n + 1) x).flatten = (List.replicate n x).flatten ++ x := by
  induction n with
  | zero => simp
  | succ n ih =>
    calc (List.replicate (n + 2) x).flatten
        = x ++ (List.replicate (n + 1) x).flatten := by
          rw [List.replicate_succ, List.flatten_cons]
      _ = x ++ ((List.replicate n x).flatten ++ x) := by rw [ih]
      _ = (x ++ (List.replicate n x).flatten) ++ x := by rw [List.append_assoc]
      _ = (List.replicate (n + 1) x).flatten ++ x := by
          rw [List.replicate_succ, List.flatten_cons]

theorem endsWithDelTake (s : List Char) (h : endsWithDel s = true) :
    s.take (s.length - delSuffix.length) ++ delSuffix = s := by
  have hs : delSuffix <:+ s := of_decide_eq_true h
  obtain ⟨pre, hpre⟩ := hs
  have hlen : s.length = pre.length + delSuffix.length := by
    rw [← hpre, List.length_append]
  rw [hlen, Nat.add_sub_cancel, ← hpre, List.take_left]

theorem endsWithDelLength (s : List Char) (h : endsWithDel s = true) :
    delSuffix.length ≤ s.length :=
  (of_decide_eq_true h : delSuffix <:+ s).length_le

theorem trimEndGoSpec (fuel : Nat) :
    ∀ s : List Char, s.length ≤ fuel → endsWithDel s = true →
      ∃ r n, trimEndMatchesDelGo fuel s = r ∧ endsWithDel r = false ∧ 1 ≤ n ∧
        s = r ++ (List.replicate n delSuffix).flatten := by
  induction fuel with
  | zero =>
    intro s hle h
    have : s = [] := List.eq_nil_of_length_eq_zero (Nat.le_zero.mp hle)
    subst this
    exact absurd h (by decide)
  | succ fuel ih =>
    intro s hle h
    have hsplit := endsWithDelTake s h
    have hlen10 := endsWithDelLength s h
    have hgo : trimEndMatchesDelGo (fuel + 1) s =
        trimEndMatchesDelGo fuel (s.take (s.length - delSuffix.length)) := by
      show (if endsWithDel s = true then
          trimEndMatchesDelGo fuel (s.take (s.length - delSuffix.length)) else s) = _
      rw [if_pos h]
    by_cases h' : endsWithDel (s.take (s.length - delSuffix.length)) = true
    · have hlen' : (s.take (s.length - delSuffix.length)).length ≤ fuel := by
        have h1 : (s.take (s.length - delSuffix.length)).length ≤ s.length - delSuffix.length :=
          (List.length_take _ _).le.trans (Nat.min_le_left _ _)
        have hd : delSuffix.length = 10 := by decide
        rw [hd] at h1 hlen10 ⊢
        omega
      obtain ⟨r, n, hr, hrn, hn1, hsn⟩ := ih _ hlen' h'
      refine ⟨r, n + 1, by rw [hgo, hr], hrn, by omega, ?_⟩
      rw [flattenReplicateSucc, ← List.append_assoc, ← hsn, hsplit]
    · have hstop : trimEndMatchesDelGo fuel (s.take (s.length - delSuffix.length)) =
          s.take (s.length - delSuffix.length) := by
        cases fuel with
        | zero => rfl
        | succ m =>
          show (if endsWithDel (s.take (s.length - delSuffix.length)) = true then
              trimEndMatchesDelGo m ((s.take (s.length - delSuffix.length)).take
                ((s.take (s.length - delSuffix.length)).length - delSuffix.length))
            else s.take (s.length - delSuffix.length)) = _
          rw [if_neg h']
      refine ⟨s.take (s.length - delSuffix.length), 1, by rw [hgo, hstop],
        Bool.eq_false_iff.mpr (fun hx => h' hx), Nat.le_refl 1, ?_⟩
      rw [show (List.replicate 1 delSuffix).flatten = delSuffix by simp, hsplit]

/-- The five special bracketed path strings recognized before the general
arms of `PathType::from_str`. -/
def specialPathStrings : List (List Char) :=
  ["[heap]".toList, "[stack]".toList, "[vdso]".toList, "[vvar]".toList, "[vsyscall]".toList]

/-- C7 (amended): `PathType::from_str` is total; the empty string maps to
`Anonymous`, the five bracketed singletons to their variants, any other
string ending in `" (deleted)"` maps to `Deleted` of the path with *all*
trailing repetitions of that suffix removed (not exactly one — see the
counterexample), and every other non-empty string maps to `File` of itself. -/
theorem path_classification_total (s : List Char) :
    (s = [] → pathTypeFromStr s = .Anonymous) ∧
    (s = "[heap]".toList → pathTypeFromStr s = .Heap) ∧
    (s = "[stack]".toList → pathTypeFromStr s = .Stack) ∧
    (s = "[vdso]".toList → pathTypeFromStr s = .Vdso) ∧
    (s = "[vvar]".toList → pathTypeFromStr s = .Vvar) ∧
    (s = "[vsyscall]".toList → pathTypeFromStr s = .Vsyscall) ∧
    (s ∉ specialPathStrings → endsWithDel s = true →
      ∃ r n, pathTypeFromStr s = .Deleted r ∧ endsWithDel r = false ∧ 1 ≤ n ∧
        s = r ++ (List.replicate n delSuffix).flatten) ∧
    (s ≠ [] → s ∉ specialPathStrings → endsWithDel s = false → pathTypeFromStr s = .File s) := by
  refine ⟨?_, ?_, ?_, ?_, ?_, ?_, ?_, ?_⟩
  · intro h; subst h; decide
  · intro h; subst h; decide
  · intro h; subst h; decide
  · intro h; subst h; decide
  · intro h; subst h; decide
  · intro h; subst h; decide
  · intro hns h
    have hne : s ≠ [] := by
      intro hnil
      subst hnil
      exact absurd h (by decide)
    simp only [specialPathStrings, List.mem_cons, List.not_mem_nil, or_false, not_or] at hns
    obtain ⟨n1, n2, n3, n4, n5⟩ := hns
    have hcls : pathTypeFromStr s = .Deleted (trimEndMatchesDel s) := by
      unfold pathTypeFromStr
      rw [if_neg hne, if_neg n1, if_neg n2, if_neg n3, if_neg n4, if_neg n5, if_pos h]
    obtain ⟨r, n, hr, hrn, hn1, hsn⟩ := trimEndGoSpec s.length s (Nat.le_refl _) h
    exact ⟨r, n, by rw [hcls]; exact congrArg _ hr, hrn, hn1, hsn⟩
  · intro hne hns h
    simp only [specialPathStrings, List.mem_cons, List.not_mem_nil, or_false, not_or] at hns
    obtain ⟨n1, n2, n3, n4, n5⟩ := hns
    unfold pathTypeFromStr
    rw [if_neg hne, if_neg n1, if_neg n2, if_neg n3, if_neg n4, if_neg n5,
        if_neg (by simp [h])]

theorem path_classification_total_witness :
    (("/x (deleted) (deleted)".toList ∉ specialPathStrings) ∧
      endsWithDel "/x (deleted) (deleted)".toList = true) ∧
    (∃ r n, pathTypeFromStr "/x (deleted) (deleted)".toList = .Deleted r ∧
      endsWithDel r = false ∧ 1 ≤ n ∧
      "/x (deleted) (deleted)".toList = r ++ (List.replicate n delSuffix).flatten) :=
  ⟨⟨by decide, by decide⟩,
   (path_classification_total "/x (deleted) (deleted)".toList).2.2.2.2.2.2.1
     (by decide) (by decide)⟩

/-! ## The error behaviour of the snapshot builder (C2, C4, C9) -/

/-- The error component of an `Except` result, if any. -/
def errOpt {α : Type} : Except MemoryParseError α → Option MemoryParseError
  | .error e => some e
  | .ok _ => none

/-- The first parse error among the address lines of a line list, in order. -/
def firstHeaderErr (lines : List (List Char)) : Option MemoryParseError :=
  (lines.filter (fun l => isAddressLine l)).findSome? (fun l => errOpt (memoryRegionFromStr l))

theorem filterDropWhileNot (p : List Char → Bool) (l : List (List Char)) :
    (l.dropWhile (fun x => !p x)).filter p = l.filter p := by
  induction l with
  | nil => rfl
  | cons a l ih =>
    by_cases h : p a = true
    · simp [List.dropWhile_cons, h]
    · simp only [List.dropWhile_cons]
      rw [if_pos (by simp [h]), ih, List.filter_cons, if_neg h]

theorem buildRegionsErrIff (lines : List (List Char)) (e : MemoryParseError) :
    buildRegions lines = .error e ↔ firstHeaderErr lines = some e := by
  induction lines using buildRegions.induct with
  | case1 =>
    simp [buildRegions, firstHeaderErr]
  | case2 l rest haddr e' hparse =>
    rw [show buildRegions (l :: rest) = .error e' by
      simp only [buildRegions]; rw [if_pos haddr, hparse]]
    unfold firstHeaderErr
    rw [List.filter_cons, if_pos haddr, List.findSome?_cons]
    simp [errOpt, hparse]
  | case3 l rest haddr base hparse e' hrec ih =>
    rw [show buildRegions (l :: rest) = .error e' by
      simp only [buildRegions]; rw [if_pos haddr, hparse, hrec]]
    unfold firstHeaderErr
    rw [List.filter_cons, if_pos haddr, List.findSome?_cons]
    have hnone : errOpt (memoryRegionFromStr l) = none := by rw [hparse]; rfl
    simp only [hnone]
    unfold firstHeaderErr at ih
    rw [filterDropWhileNot (fun l => isAddressLine l) rest] at ih
    rw [← ih, hrec]
  | case4 l rest haddr base hparse tail hrec ih =>
    rw [show buildRegions (l :: rest) =
        .ok ((rest.takeWhile (fun x => !isAddressLine x)).foldl parseDetailIntoRegion
          (.fromRegion base) :: tail) by
      simp only [buildRegions]; rw [if_pos haddr, hparse, hrec]]
    unfold firstHeaderErr
    rw [List.filter_cons, if_pos haddr, List.findSome?_cons]
    have hnone : errOpt (memoryRegionFromStr l) = none := by rw [hparse]; rfl
    simp only [hnone]
    unfold firstHeaderErr at ih
    rw [filterDropWhileNot (fun l => isAddressLine l) rest] at ih
    rw [← ih, hrec]
    simp
  | case5 l rest haddr ih =>
    rw [show buildRegions (l :: rest) = buildRegions rest by
      simp only [buildRegions]; rw [if_neg haddr]]
    unfold firstHeaderErr
    rw [List.filter_cons, if_neg haddr]
    exact ih

/-- C9: error propagation of the Snapshot Builder is asymmetric — the whole
construction returns an error exactly when some line classified as a header
line fails to parse (the first such error, in line order), so no partial
region list is produced; malformed detail lines never surface as errors,
since `parse_detail_into_region` is total and its result is not consulted for
failure. -/
theorem header_error_asymmetry (lines : List (List Char)) (e : MemoryParseError) :
    buildRegions lines = .error e ↔ firstHeaderErr lines = some e :=
  buildRegionsErrIff lines e

/-- C2: a descriptor whose line list contains a header line with only three
whitespace-delimited tokens (address range, permissions, offset all present
and well-formed, device absent), all earlier header lines parsing cleanly,
makes the whole snapshot construction fail with `MissingField "device"`; no
partial region list is produced. -/
theorem missing_device_aborts_snapshot
    (pid : Nat) (cmdline smaps : List Char) (pre post : List (List Char)) (bad t1 t2 t3 : List Char)
    (hlines : rustLines smaps = pre ++ bad :: post)
    (hpre : ∀ l ∈ pre, isAddressLine l = true → errOpt (memoryRegionFromStr l) = none)
    (haddr : isAddressLine bad = true)
    (htoks : (splitNOn 6 rustIsWhitespace bad).filter (fun t => !t.isEmpty) = [t1, t2, t3])
    (h1 : (parseAddressRange t1).isOk = true)
    (h2 : (permissionsFromStr t2).isOk = true)
    (h3 : (fromStrRadix U64 16 t3).isOk = true) :
    processFromContents pid cmdline smaps =
      .error (.memoryParseError (.missingField "device")) := by
  have hbad : memoryRegionFromStr bad = .error (.missingField "device") := by
    simp only [memoryRegionFromStr, htoks]
    cases hp1 : parseAddressRange t1 with
    | error err => rw [hp1] at h1; exact absurd h1 (by simp [Except.isOk, Except.toBool])
    | ok v1 =>
      cases hp2 : permissionsFromStr t2 with
      | error err => rw [hp2] at h2; exact absurd h2 (by simp [Except.isOk, Except.toBool])
      | ok v2 =>
        cases hp3 : fromStrRadix U64 16 t3 with
        | error err => rw [hp3] at h3; exact absurd h3 (by simp [Except.isOk, Except.toBool])
        | ok v3 => rfl
  have hfhe : firstHeaderErr (rustLines smaps) = some (.missingField "device") := by
    rw [hlines]
    unfold firstHeaderErr
    rw [List.filter_append, List.findSome?_append]
    have hnone : ((pre.filter (fun l => isAddressLine l)).findSome?
        (fun l => errOpt (memoryRegionFromStr l))) = none := by
      refine List.findSome?_eq_none_iff.mpr ?_
      intro x hx
      exact hpre x (List.mem_of_mem_filter hx) (List.of_mem_filter hx)
    rw [hnone, Option.none_or, List.filter_cons, if_pos haddr, List.findSome?_cons]
    simp [errOpt, hbad]
  have hbuild : buildRegions (rustLines smaps) = .error (.missingField "device") :=
    (buildRegionsErrIff _ _).mpr hfhe
  simp only [processFromContents, hbuild]

theorem missing_device_aborts_snapshot_witness :
    ((rustLines "0-1 r-xp 0".toList = [] ++ "0-1 r-xp 0".toList :: []) ∧
      (∀ l ∈ ([] : List (List Char)), isAddressLine l = true →
        errOpt (memoryRegionFromStr l) = none) ∧
      isAddressLine "0-1 r-xp 0".toList = true ∧
      (splitNOn 6 rustIsWhitespace "0-1 r-xp 0".toList).filter (fun t => !t.isEmpty) =
        ["0-1".toList, "r-xp".toList, "0".toList] ∧
      (parseAddressRange "0-1".toList).isOk = true ∧
      (permissionsFromStr "r-xp".toList).isOk = true ∧
      (fromStrRadix U64 16 "0".toList).isOk = true) ∧
    processFromContents 1 [] "0-1 r-xp 0".toList =
      .error (.memoryParseError (.missingField "device")) :=
  ⟨⟨by decide, by simp, by decide, by decide, by decide, by decide, by decide⟩,
   missing_device_aborts_snapshot 1 [] "0-1 r-xp 0".toList [] [] "0-1 r-xp 0".toList
     "0-1".toList "r-xp".toList "0".toList (by decide) (by simp) (by decide) (by decide)
     (by decide) (by decide) (by decide)⟩

/-! ## C4: hex-letter detail lines are mistaken for headers -/

/-- C4: every line whose first character is an ASCII hex digit that is a
letter (`a`-`f` or `A`-`F`) is classified as a header line by
`is_address_line`; consequently the detail counter line
`"Anonymous: 1024 kB"` following a valid header is parsed as a region header,
fails with `InvalidAddress`, and aborts the whole snapshot construction
instead of being accumulated as a detail or skipped. -/
theorem hex_letter_detail_line_aborts :
    (∀ (c : Char) (rest : List Char),
        (('a' ≤ c ∧ c ≤ 'f') ∨ ('A' ≤ c ∧ c ≤ 'F')) → isAddressLine (c :: rest) = true) ∧
    buildRegions ["0-1 r--p 0 0:0 0".toList, "Anonymous: 1024 kB".toList] =
      .error (.invalidAddress "Anonymous:".toList) := by
  constructor
  · intro c rest h
    show isAsciiHexDigit c = true
    unfold isAsciiHexDigit
    rcases h with h | h
    · rw [decide_eq_true h]
      simp
    · rw [decide_eq_true h]
      simp
  · exact (buildRegionsErrIff _ _).mpr (by decide)

theorem hex_letter_detail_line_aborts_witness :
    (('a' ≤ 'b' ∧ 'b' ≤ 'f') ∨ ('A' ≤ 'b' ∧ 'b' ≤ 'F')) ∧
    isAddressLine ('b' :: "ad".toList) = true :=
  ⟨Or.inl (by decide), hex_letter_detail_line_aborts.1 'b' "ad".toList (Or.inl (by decide))⟩

/-! ## C8: the builder is the claimed two-state machine -/

/-- Second definition following the claim's words (to be compared with
`buildRegions`): scan lines left to right with state (completed list,
in-progress region).  A header line finalizes any in-progress region and
starts a new one; a non-header line is routed to the in-progress region's
detail accumulator, or skipped when no region is in progress; the last
in-progress region is finalized at end of input. -/
def specScan : List (List Char) → List DetailedMemoryRegion → Option DetailedMemoryRegion →
    Except MemoryParseError (List DetailedMemoryRegion)
  | [], completed, current => .ok (completed ++ current.toList)
  | l :: rest, completed, current =>
    if isAddressLine l then
      match memoryRegionFromStr l with
      | .error e => .error e
      | .ok base => specScan rest (completed ++ current.toList) (some (.fromRegion base))
    else
      match current with
      | some r => specScan rest completed (some (parseDetailIntoRegion r l))
      | none => specScan rest completed none

/-- The state machine started with no completed regions and no region in
progress. -/
def specBuild (lines : List (List Char)) : Except MemoryParseError (List DetailedMemoryRegion) :=
  specScan lines [] none

theorem specScanSome (lines : List (List Char)) :
    ∀ (r : DetailedMemoryRegion) (completed : List DetailedMemoryRegion),
      specScan lines completed (some r) =
        Except.map
          (fun tail => completed ++
            ((lines.takeWhile (fun x => !isAddressLine x)).foldl parseDetailIntoRegion r) :: tail)
          (buildRegions (lines.dropWhile (fun x => !isAddressLine x))) := by
  induction lines with
  | nil =>
    intro r completed
    simp [specScan, buildRegions, Except.map]
  | cons l rest ih =>
    intro r completed
    by_cases haddr : isAddressLine l = true
    · have hdw : (l :: rest).dropWhile (fun x => !isAddressLine x) = l :: rest := by
        rw [List.dropWhile_cons, if_neg (by simp [haddr])]
      have htw : (l :: rest).takeWhile (fun x => !isAddressLine x) = [] := by
        rw [List.takeWhile_cons, if_neg (by simp [haddr])]
      rw [hdw, htw]
      cases hp : memoryRegionFromStr l with
      | error e =>
        have hl : specScan (l :: rest) completed (some r) = .error e := by
          simp only [specScan]
          rw [if_pos haddr, hp]
        have hb : buildRegions (l :: rest) = .error e := by
          simp only [buildRegions]
          rw [if_pos haddr, hp]
        rw [hl, hb]
        rfl
      | ok base =>
        have hl : specScan (l :: rest) completed (some r) =
            specScan rest (completed ++ [r]) (some (.fromRegion base)) := by
          simp only [specScan]
          rw [if_pos haddr, hp]
          rfl
        have hb : buildRegions (l :: rest) =
            match buildRegions (rest.dropWhile (fun x => !isAddressLine x)) with
            | .error e => .error e
            | .ok tail => .ok
                ((rest.takeWhile (fun x => !isAddressLine x)).foldl parseDetailIntoRegion
                  (.fromRegion base) :: tail) := by
          simp only [buildRegions]
          rw [if_pos haddr, hp]
        rw [hl, ih, hb]
        cases hrec : buildRegions (rest.dropWhile (fun x => !isAddressLine x)) with
        | error e => rfl
        | ok tail => simp [Except.map, List.foldl_nil]
    · have hdw : (l :: rest).dropWhile (fun x => !isAddressLine x) =
          rest.dropWhile (fun x => !isAddressLine x) := by
        rw [List.dropWhile_cons, if_pos (by simp [haddr])]
      have htw : (l :: rest).takeWhile (fun x => !isAddressLine x) =
          l :: rest.takeWhile (fun x => !isAddressLine x) := by
        rw [List.takeWhile_cons, if_pos (by simp [haddr])]
      have hl : specScan (l :: rest) completed (some r) =
          specScan rest completed (some (parseDetailIntoRegion r l)) := by
        simp only [specScan]
        rw [if_neg haddr]
      rw [hl, ih, hdw, htw, List.foldl_cons]

theorem specScanNone (lines : List (List Char)) :
    ∀ completed : List DetailedMemoryRegion,
      specScan lines completed none =
        Except.map (fun tail => completed ++ tail) (buildRegions lines) := by
  induction lines with
  | nil =>
    intro completed
    simp [specScan, buildRegions, Except.map]
  | cons l rest ih =>
    intro completed
    by_cases haddr : isAddressLine l = true
    · cases hp : memoryRegionFromStr l with
      | error e =>
        have hl : specScan (l :: rest) completed none = .error e := by
          simp only [specScan]
          rw [if_pos haddr, hp]
        have hb : buildRegions (l :: rest) = .error e := by
          simp only [buildRegions]
          rw [if_pos haddr, hp]
        rw [hl, hb]
        rfl
      | ok base =>
        have hl : specScan (l :: rest) completed none =
            specScan rest completed (some (.fromRegion base)) := by
          simp only [specScan]
          rw [if_pos haddr, hp]
          simp
        have hb : buildRegions (l :: rest) =
            match buildRegions (rest.dropWhile (fun x => !isAddressLine x)) with
            | .error e => .error e
            | .ok tail => .ok
                ((rest.takeWhile (fun x => !isAddressLine x)).foldl parseDetailIntoRegion
                  (.fromRegion base) :: tail) := by
          simp only [buildRegions]
          rw [if_pos haddr, hp]
        rw [hl, specScanSome rest, hb]
        cases hrec : buildRegions (rest.dropWhile (fun x => !isAddressLine x)) with
        | error e => rfl
        | ok tail => simp [Except.map]
    · have hl : specScan (l :: rest) completed none = specScan rest completed none := by
        simp only [specScan]
        rw [if_neg haddr]
      have hb : buildRegions (l :: rest) = buildRegions rest := by
        simp only [buildRegions]
        rw [if_neg haddr]
      rw [hl, ih, hb]

/-- C8: the Snapshot Builder's nested-loop implementation is exactly the
claimed left-to-right two-state scan over the lines, with "first character is
an ASCII hex digit" as the sole discriminator: header lines start regions,
non-header lines are routed to the in-progress region or skipped when none is
in progress, the last in-progress region is finalized at end of input, and
the output preserves header-line order. -/
theorem snapshot_builder_state_machine (lines : List (List Char)) :
    specBuild lines = buildRegions lines := by
  unfold specBuild
  rw [specScanNone lines []]
  cases h : buildRegions lines with
  | error e => rfl
  | ok tail => simp [Except.map]

/-! ## C1: header-field extraction (amended: single-whitespace separators) -/

theorem splitFirstNone (p : Char → Bool) (t : List Char) (ht : ∀ x ∈ t, p x = false) :
    splitFirst p t = none := by
  induction t with
  | nil => rfl
  | cons c t ih =>
    simp only [splitFirst]
    rw [if_neg (by simp [ht c (List.mem_cons_self c t)]),
        ih (fun x hx => ht x (List.mem_cons_of_mem c hx))]

theorem splitFirstSep (p : Char → Bool) (t : List Char) (c : Char) (rest : List Char)
    (ht : ∀ x ∈ t, p x = false) (hc : p c = true) :
    splitFirst p (t ++ c :: rest) = some (t, rest) := by
  induction t with
  | nil =>
    simp only [List.nil_append, splitFirst]
    rw [if_pos hc]
  | cons a t ih =>
    simp only [List.cons_append, splitFirst, List.append_eq]
    rw [if_neg (by simp [ht a (List.mem_cons_self a t)]),
        ih (fun x hx => ht x (List.mem_cons_of_mem a hx))]

theorem splitNOnNoSep (n : Nat) (p : Char → Bool) (t : List Char) (hn : 1 ≤ n)
    (ht : ∀ x ∈ t, p x = false) : splitNOn n p t = [t] := by
  match n, hn with
  | 1, _ => rfl
  | n + 2, _ =>
    simp only [splitNOn]
    rw [splitFirstNone p t ht]

theorem splitNOnSep (n : Nat) (p : Char → Bool) (t : List Char) (c : Char) (rest : List Char)
    (ht : ∀ x ∈ t, p x = false) (hc : p c = true) :
    splitNOn (n + 2) p (t ++ c :: rest) = t :: splitNOn (n + 1) p rest := by
  simp only [splitNOn]
  rw [splitFirstSep p t c rest ht hc]

/-- The optional sixth token of the split when the first four separators are
single whitespace characters: the remainder after the fifth whitespace
character, if nonempty. -/
def pathTokOf : List Char → Option (List Char)
  | [] => none
  | _ :: r0 => if r0.isEmpty then none else some r0

/-- The parse the claim prescribes, from the five mandatory field tokens and
the optional raw path token, which is trimmed and classified. -/
def headerFieldsSpec (t1 t2 t3 t4 t5 : List Char) (pathTok : Option (List Char)) :
    Except MemoryParseError MemoryRegion :=
  match parseAddressRange t1 with
  | .error e => .error e
  | .ok (start, endAddr) =>
    match permissionsFromStr t2 with
    | .error e => .error e
    | .ok permissions =>
      match fromStrRadix U64 16 t3 with
      | .error k => .error (.invalidInt k)
      | .ok offset =>
        match parseDevice t4 with
        | .error e => .error e
        | .ok device =>
          match fromStrRadix U64 10 t5 with
          | .error k => .error (.invalidInt k)
          | .ok inode =>
            .ok ⟨start, endAddr, permissions, offset, device, inode,
                 pathTok.map (fun s => pathTypeFromStr (rustTrim s))⟩

theorem notIsEmptyOfNeNil (t : List Char) (h : t ≠ []) : (!t.isEmpty) = true := by
  cases t with
  | nil => exact absurd rfl h
  | cons a t => rfl

/-- C1 (amended): when each of the four separators between the five mandatory
fields is a *single* whitespace character, `MemoryRegion::from_str` parses the
five tokens as the five fields and treats everything after the fifth
whitespace character — which may itself begin with more whitespace — as the
(possibly empty, possibly multi-word) trimmed final path field.  Runs of
whitespace are therefore only tolerated in the separator before the path:
a run within the first four separators consumes `splitn` slots and shifts the
remainder (see the counterexample). -/
theorem from_str_single_space_fields
    (t1 t2 t3 t4 t5 : List Char) (w1 w2 w3 w4 : Char) (rest : List Char)
    (h1 : t1 ≠ [] ∧ ∀ x ∈ t1, rustIsWhitespace x = false)
    (h2 : t2 ≠ [] ∧ ∀ x ∈ t2, rustIsWhitespace x = false)
    (h3 : t3 ≠ [] ∧ ∀ x ∈ t3, rustIsWhitespace x = false)
    (h4 : t4 ≠ [] ∧ ∀ x ∈ t4, rustIsWhitespace x = false)
    (h5 : t5 ≠ [] ∧ ∀ x ∈ t5, rustIsWhitespace x = false)
    (hw1 : rustIsWhitespace w1 = true) (hw2 : rustIsWhitespace w2 = true)
    (hw3 : rustIsWhitespace w3 = true) (hw4 : rustIsWhitespace w4 = true)
    (hrest : rest = [] ∨ ∃ c r0, rest = c :: r0 ∧ rustIsWhitespace c = true) :
    memoryRegionFromStr
        (t1 ++ w1 :: (t2 ++ w2 :: (t3 ++ w3 :: (t4 ++ w4 :: (t5 ++ rest))))) =
      headerFieldsSpec t1 t2 t3 t4 t5 (pathTokOf rest) := by
  have hs1 := splitNOnSep 4 rustIsWhitespace t1 w1
    (t2 ++ w2 :: (t3 ++ w3 :: (t4 ++ w4 :: (t5 ++ rest)))) h1.2 hw1
  have hs2 := splitNOnSep 3 rustIsWhitespace t2 w2
    (t3 ++ w3 :: (t4 ++ w4 :: (t5 ++ rest))) h2.2 hw2
  have hs3 := splitNOnSep 2 rustIsWhitespace t3 w3
    (t4 ++ w4 :: (t5 ++ rest)) h3.2 hw3
  have hs4 := splitNOnSep 1 rustIsWhitespace t4 w4 (t5 ++ rest) h4.2 hw4
  have f1 := notIsEmptyOfNeNil t1 h1.1
  have f2 := notIsEmptyOfNeNil t2 h2.1
  have f3 := notIsEmptyOfNeNil t3 h3.1
  have f4 := notIsEmptyOfNeNil t4 h4.1
  have f5 := notIsEmptyOfNeNil t5 h5.1
  rcases hrest with hr | ⟨c, r0, hr, hc⟩
  · subst hr
    have hs5 : splitNOn 2 rustIsWhitespace (t5 ++ []) = [t5] := by
      rw [List.append_nil]
      exact splitNOnNoSep 2 rustIsWhitespace t5 (by omega) h5.2
    have htoks : (splitNOn 6 rustIsWhitespace
          (t1 ++ w1 :: (t2 ++ w2 :: (t3 ++ w3 :: (t4 ++ w4 :: (t5 ++ [])))))).filter
            (fun t => !t.isEmpty) = [t1, t2, t3, t4, t5] := by
      rw [hs1, hs2, hs3, hs4, hs5]
      simp [List.filter_cons, f1, f2, f3, f4, f5]
    simp only [memoryRegionFromStr, htoks]
    rfl
  · subst hr
    have hs5 : splitNOn 2 rustIsWhitespace (t5 ++ c :: r0) = [t5, r0] := by
      rw [splitNOnSep 0 rustIsWhitespace t5 c r0 h5.2 hc]
      rfl
    by_cases hr0 : r0.isEmpty = true
    · have hr0nil : r0 = [] := List.isEmpty_iff.mp hr0
      subst hr0nil
      have htoks : (splitNOn 6 rustIsWhitespace
            (t1 ++ w1 :: (t2 ++ w2 :: (t3 ++ w3 :: (t4 ++ w4 :: (t5 ++ c :: [])))))).filter
              (fun t => !t.isEmpty) = [t1, t2, t3, t4, t5] := by
        rw [hs1, hs2, hs3, hs4, hs5]
        simp [List.filter_cons, f1, f2, f3, f4, f5]
      simp only [memoryRegionFromStr, htoks]
      rfl
    · have f6 : (!r0.isEmpty) = true := by simp [hr0]
      have htoks : (splitNOn 6 rustIsWhitespace
            (t1 ++ w1 :: (t2 ++ w2 :: (t3 ++ w3 :: (t4 ++ w4 :: (t5 ++ c :: r0)))))).filter
              (fun t => !t.isEmpty) = [t1, t2, t3, t4, t5, r0] := by
        rw [hs1, hs2, hs3, hs4, hs5]
        simp [List.filter_cons, f1, f2, f3, f4, f5, f6]
      have hpt : pathTokOf (c :: r0) = some r0 := by
        simp only [pathTokOf]
        rw [if_neg hr0]
      simp only [memoryRegionFromStr, htoks, hpt]
      rfl

theorem from_str_single_space_fields_witness :
    (("0-1".toList ≠ [] ∧ ∀ x ∈ "0-1".toList, rustIsWhitespace x = false) ∧
      (" /x y".toList = [] ∨
        ∃ c r0, " /x y".toList = c :: r0 ∧ rustIsWhitespace c = true)) ∧
    memoryRegionFromStr
        ("0-1".toList ++ ' ' :: ("r-xp".toList ++ ' ' :: ("0".toList ++ ' ' ::
          ("0:0".toList ++ ' ' :: ("7".toList ++ " /x y".toList))))) =
      headerFieldsSpec "0-1".toList "r-xp".toList "0".toList "0:0".toList "7".toList
        (pathTokOf " /x y".toList) :=
  ⟨⟨by decide, Or.inr ⟨' ', "/x y".toList, rfl, by decide⟩⟩,
   from_str_single_space_fields "0-1".toList "r-xp".toList "0".toList "0:0".toList
     "7".toList ' ' ' ' ' ' ' ' " /x y".toList
     (by decide) (by decide) (by decide) (by decide) (by decide)
     (by decide) (by decide) (by decide) (by decide)
     (Or.inr ⟨' ', "/x y".toList, rfl, by decide⟩)⟩

end RsMemmap
